import Mathlib

/-!
Verification of the named-dimension algebra layer of `namedtensor`
(`src/namedtensor/torch_base.py`, class `NTorch`).

The repository ships only `torch_base.py`; the `NamedTensor`/`Schema`
helpers (`torch_helpers.py`) and the numeric engine (torch, opt_einsum)
are external to `src/` and are modelled from the spec where needed, each
such definition marked `Modelled from the spec:` in its doc comment.

Tensors are embedded as a shape together with a total data function from
multi-indices to integers; every operation of the layer is a pure function,
and Python exceptions are `Except.error` carrying the message raised.
-/

namespace NT

/-- A raw multi-dimensional numeric buffer of the underlying engine:
a shape and a total function from multi-indices (lists of coordinates)
to integer entries.  Entries outside the shape are irrelevant to every
statement below, which quantifies only over in-range indices. -/
structure Tensor where
  shape : List Nat
  data : List Nat → Int

/-- A named tensor: a raw tensor paired with its schema, the ordered list
of dimension names (index = physical axis position).  Mirrors
`NamedTensor(tensor, names)` of the repository. -/
structure NamedTensor where
  tensor : Tensor
  names : List String

/-- Index of the first occurrence of `a` in `l` (Python `list.index`,
total: returns `l.length` when absent; call sites check membership). -/
def idxOf {α : Type} [DecidableEq α] : List α → α → Nat
  | [], _ => 0
  | b :: l, a => if b = a then 0 else idxOf l a + 1

/-- Association-list lookup keyed by decidable equality
(Python `dict` access). -/
def alook {α β : Type} [DecidableEq α] : List (α × β) → α → Option β
  | [], _ => none
  | (k, v) :: l, a => if k = a then some v else alook l a

/-- All multi-indices of a given shape, in row-major order. -/
def indicesOf : List Nat → List (List Nat)
  | [] => [[]]
  | n :: s => (List.range n).flatMap (fun i => (indicesOf s).map (i :: ·))

/-- Modelled from the spec: the positional `permute` primitive of the
underlying engine (§6).  `dims` lists, for each output axis, the input
axis it takes; output entry at `ix` is the input entry whose coordinate
on axis `d` is the output coordinate on the axis `k` with `dims[k] = d`. -/
def permuteRaw (dims : List Nat) (t : Tensor) : Tensor where
  shape := dims.map (fun d => t.shape.getD d 0)
  data := fun ix => t.data ((List.range dims.length).map (fun d => ix.getD (idxOf dims d) 0))

/-- Modelled from the spec: the positional `stack` primitive of the
underlying engine (§6), along a new leading axis. -/
def stackRaw (ts : List Tensor) : Tensor where
  shape := ts.length :: (match ts with | [] => [] | t :: _ => t.shape)
  data := fun ix =>
    match ts.get? (ix.getD 0 0) with
    | some t => t.data (ix.drop 1)
    | none => 0

/-- Helper for `catRaw`: walk the operand list consuming the coordinate
along the concatenation axis. -/
def catPick (d : Nat) (ix : List Nat) : List Tensor → Nat → Int
  | [], _ => 0
  | t :: ts, v =>
    if v < t.shape.getD d 0 then t.data (ix.set d v)
    else catPick d ix ts (v - t.shape.getD d 0)

/-- Modelled from the spec: the positional `concatenate` primitive of the
underlying engine (§6), along axis `d`.  The engine rejects an empty
operand list; call sites below never pass one on a proved path. -/
def catRaw (ts : List Tensor) (d : Nat) : Tensor where
  shape :=
    match ts with
    | [] => []
    | t :: _ => t.shape.set d ((ts.map (fun u => u.shape.getD d 0)).sum)
  data := fun ix => catPick d ix ts (ix.getD d 0)

/-- Modelled from the spec: the positional `gather` primitive of the
underlying engine (§6): output has the index tensor's shape, and the
entry at `ix` is the input entry at `ix` with the coordinate on axis `d`
replaced by the index entry at `ix`. -/
def gatherRaw (t : Tensor) (d : Nat) (idx : Tensor) : Tensor where
  shape := idx.shape
  data := fun ix => t.data (ix.set d (idx.data ix).toNat)

/-- Modelled from the spec: the in-place positional `scatter` primitive of
the underlying engine (§6), returned here as the post-state of the mutated
buffer.  Overlapping writes (undefined in the engine) are resolved by the
last writing position in row-major order. -/
def scatterRaw (t : Tensor) (d : Nat) (idx src : Tensor) : Tensor where
  shape := t.shape
  data := fun ix =>
    match (indicesOf idx.shape).reverse.find?
        (fun j => j.set d (idx.data j).toNat = ix) with
    | some j => src.data j
    | none => t.data ix

/-- Modelled from the spec: arbitrary-rank positional sub-tensor
extraction of the underlying engine (§6): `t[tuple(pre)]` fixes the
leading `pre.length` coordinates. -/
def subIndex (pre : List Nat) (t : Tensor) : Tensor where
  shape := t.shape.drop pre.length
  data := fun ix => t.data (pre ++ ix)

/-- Modelled from the spec: the `unsqueeze(0)` primitive of the underlying
engine: prepend a singleton axis. -/
def unsqueeze0 (t : Tensor) : Tensor where
  shape := 1 :: t.shape
  data := fun ix => t.data (ix.drop 1)

/-- Modelled from the spec: `Schema.get` resolves a name to its physical
axis position; referencing a name absent from the schema fails
(UnknownDimensionError, §7). -/
def NamedTensor.getDim (t : NamedTensor) (name : String) : Except String Nat :=
  if name ∈ t.names then .ok (idxOf t.names name)
  else .error ("Unknown dimension " ++ name)

/-- Modelled from the spec: the name-keyed `shape` mapping of a
NamedTensor; the size of the axis carrying `name` (first occurrence). -/
def NamedTensor.shapeAt (t : NamedTensor) (name : String) : Nat :=
  t.tensor.shape.getD (idxOf t.names name) 0

/-- Modelled from the spec: the size of the name-keyed `shape` mapping;
schemas are duplicate-free (§3), so it equals the number of names.
(`len(tensor.shape)` in the source.) -/
def NamedTensor.dimCount (t : NamedTensor) : Nat :=
  t.names.length

/-- Modelled from the spec: `_new(raw, updates)` — a new NamedTensor
carrying the caller's schema with each name that is a key of `updates`
replaced by the associated value (`updates.get(n, n)` per name). -/
def NamedTensor.newU (t : NamedTensor) (raw : Tensor)
    (updates : List (String × String)) : NamedTensor :=
  ⟨raw, t.names.map (fun n => (alook updates n).getD n)⟩

/-- Source `_new(raw)` with no renames: share the caller's schema. -/
def NamedTensor.new (t : NamedTensor) (raw : Tensor) : NamedTensor :=
  ⟨raw, t.names⟩

/-- Is `l₁` a permutation (as a multiset) of `l₂`? Executable check. -/
def isPermOf {α : Type} [DecidableEq α] : List α → List α → Bool
  | [], l => l.isEmpty
  | a :: l, r => decide (a ∈ r) && isPermOf l (r.erase a)

/-- Modelled from the spec: `_force_order(target)` (§4.1) — permute the
tensor's physical axes to match `target`, failing (SchemaMismatchError)
unless `target` is exactly a permutation of the tensor's current names. -/
def NamedTensor.forceOrder (t : NamedTensor) (target : List String) :
    Except String NamedTensor :=
  if isPermOf target t.names then
    .ok ⟨permuteRaw (target.map (fun n => idxOf t.names n)) t.tensor, target⟩
  else .error "Cannot force order: names do not match"

/-- Distinct integer ids used across an einsum program, in first-seen
order (operand order, then each operand's axis order). -/
def allIds (args : List (Tensor × List Nat)) : List Nat :=
  args.foldl
    (fun acc p => p.2.foldl (fun acc i => if i ∈ acc then acc else acc ++ [i]) acc) []

/-- Size of the axis labelled by id `i`: taken from the first operand
whose id list mentions `i`. -/
def idSize (args : List (Tensor × List Nat)) (i : Nat) : Nat :=
  match args.find? (fun p => i ∈ p.2) with
  | some p => p.1.shape.getD (idxOf p.2 i) 0
  | none => 0

/-- Coordinate assigned to id `i` by an environment (id, value) list. -/
def envLookup (env : List (Nat × Nat)) (i : Nat) : Nat :=
  (alook env i).getD 0

/-- All environments assigning each listed id a coordinate below its
size, in lexicographic order. -/
def enumEnvs (size : Nat → Nat) : List Nat → List (List (Nat × Nat))
  | [] => [[]]
  | i :: is =>
    (List.range (size i)).flatMap
      (fun v => (enumEnvs size is).map (fun e => (i, v) :: e))

/-- Modelled from the spec: the Einstein-summation contraction primitive
of the underlying engine (§6, `oe.contract`): alternating
(buffer, id-list) pairs plus an output id list; the output entry at a
multi-index is the sum, over all coordinates of the ids absent from the
output list, of the product of the operands' entries at the indices their
id lists select. -/
def einsum (args : List (Tensor × List Nat)) (out : List Nat) : Tensor where
  shape := out.map (idSize args)
  data := fun ix =>
    ((enumEnvs (idSize args) ((allIds args).filter (fun i => i ∉ out))).map
      (fun env =>
        (args.map
          (fun p => p.1.data (p.2.map (envLookup (out.zip ix ++ env))))).prod)).sum

/-- State threaded through `NTorch.dot`'s id-assignment loops:
the `ids` mapping (name to integer id, insertion order), the
`seen_names` list, and the accumulated (buffer, id-list) `args`. -/
structure DotAcc where
  ids : List (String × Nat)
  seen : List String
  args : List (Tensor × List Nat)

/-- Inner loop body of `NTorch.dot`: process one name of one operand
(`if name not in ids: ids[name] = len(ids); seen_names.append(name)`,
then `group.append(ids[name])`). -/
def dotName (st : List (String × Nat) × List String × List Nat)
    (name : String) : List (String × Nat) × List String × List Nat :=
  match alook st.1 name with
  | some i => (st.1, st.2.1, st.2.2 ++ [i])
  | none => (st.1 ++ [(name, st.1.length)], st.2.1 ++ [name], st.2.2 ++ [st.1.length])

/-- Outer loop body of `NTorch.dot`: process one operand, producing its
id `group` and appending `(t._tensor, group)` to the args. -/
def dotTensor (acc : DotAcc) (t : NamedTensor) : DotAcc :=
  let st := t.names.foldl dotName (acc.ids, acc.seen, [])
  ⟨st.1, st.2.1, acc.args ++ [(t.tensor, st.2.2)]⟩

/-- The id-assignment phase of `NTorch.dot` over all operands. -/
def dotAssign (tensors : List NamedTensor) : DotAcc :=
  tensors.foldl dotTensor ⟨[], [], []⟩

/-- Everything `NTorch.dot` computes before invoking the
Einstein-summation backend: the (buffer, id-list) pairs, the output id
list, and the kept names; or the error raised when a contraction name
was never seen (raised, as in the source, before any dispatch). -/
def dotPrepare (dims : List String) (tensors : List NamedTensor) :
    Except String (List (Tensor × List Nat) × List Nat × List String) :=
  let acc := dotAssign tensors
  let keep := acc.seen.filter (fun n => n ∉ dims)
  match dims.find? (fun n => n ∉ acc.seen) with
  | some n => .error ("No dimension " ++ n ++ " to contract along")
  | none => .ok (acc.args, keep.map (fun n => (alook acc.ids n).getD 0), keep)

/-- Source `NTorch.dot(dims, *tensors)`: id assignment, validation, dispatch to
the einsum backend, and wrapping the result with the kept names. -/
def dot (dims : List String) (tensors : List NamedTensor) :
    Except String NamedTensor :=
  (dotPrepare dims tensors).map (fun p => ⟨einsum p.1 p.2.1, p.2.2⟩)

/-- Source `NTorch.stack(tensors, name)`: every operand's name tuple must equal
the first operand's (the loop raises at the first mismatch); on success
the raw buffers are stacked along a new leading axis and `name` is
prepended to the shared name sequence.  An empty operand list raises the
engine's index error at `tensors[0]`. -/
def stack (tensors : List NamedTensor) (name : String) :
    Except String NamedTensor :=
  match tensors with
  | [] => .error "list index out of range"
  | t0 :: rest =>
    match rest.find? (fun t => t.names ≠ t0.names) with
    | some _ => .error "Tensors to stack don\x27t have matching dimension names"
    | none => .ok ⟨stackRaw ((t0 :: rest).map (fun t => t.tensor)), name :: t0.names⟩

/-- Source `NTorch.cat(tensors, dim)`: resolve `dim` via the FIRST operand's
schema, assert every other operand's name tuple equals the first's, then
concatenate positionally along that axis, sharing the first operand's
schema (`tensors[0]._new(...)`). -/
def cat (tensors : List NamedTensor) (dim : String) :
    Except String NamedTensor :=
  match tensors with
  | [] => .error "list index out of range"
  | t0 :: rest =>
    match t0.getDim dim with
    | .error e => .error e
    | .ok d =>
      match rest.find? (fun t => t.names ≠ t0.names) with
      | some _ => .error "assert failed: operand names differ from first operand"
      | none => .ok (t0.new (catRaw ((t0 :: rest).map (fun t => t.tensor)) d))

/-- Source `NTorch.gather(input, dim, index, index_dim)`: force-order `index` to
`input`'s axis order with `dim` substituted by `index_dim`, issue the
positional gather at `dim`'s position, and build the result via
`input._new(raw, updates={index_dim: index})`.  The source passes the
index TENSOR as the replacement value of that rename map; a tensor is
never equal to any dimension name, so the replacement value is modelled
as an arbitrary string `v` (the theorems below hold for every `v`). -/
def gather (input : NamedTensor) (dim : String) (index : NamedTensor)
    (index_dim : String) (v : String) : Except String NamedTensor :=
  let index_order := input.names.map (fun n => if n = dim then index_dim else n)
  match index.forceOrder index_order with
  | .error e => .error e
  | .ok b1 =>
    match input.getDim dim with
    | .error e => .error e
    | .ok d => .ok (input.newU (gatherRaw input.tensor d b1.tensor) [(index_dim, v)])

/-- Source `NTorch.scatter_(input, dim, index, src, index_dim)` as a state
transformer: returns the post-state of `input` together with the raised
error, if any.  The source force-orders `index`, then `src`, then
resolves `dim`'s position, and only then runs the in-place positional
scatter on `input`'s buffer (`input.values.scatter_`), which touches the
tensor contents and never the schema; a raise on any earlier line leaves
`input` exactly as it was, and no new NamedTensor is returned. -/
def scatterRun (input : NamedTensor) (dim : String) (index src : NamedTensor)
    (index_dim : String) : NamedTensor × Option String :=
  let index_order := input.names.map (fun n => if n = dim then index_dim else n)
  match index.forceOrder index_order with
  | .error e => (input, some e)
  | .ok index_force =>
    match src.forceOrder index_order with
    | .error e => (input, some e)
    | .ok src_force =>
      match input.getDim dim with
      | .error e => (input, some e)
      | .ok d =>
        (⟨scatterRaw input.tensor d index_force.tensor src_force.tensor,
          input.names⟩, none)

/-- Source `NTorch.multi_index_select(tensor, dims, indices)`: validates, in
source order, (1) `indices`' second named axis size against `len(dims)`,
(2) `len(dims)` against the tensor's dimension count, (3) duplicate names
in `dims`, (4) membership of each dim in the tensor's schema; then
permutes the `dims` axes to the front and, for every row of the 2-D
`indices` (element-axis first, coordinate-axis second), extracts the
sub-tensor at that coordinate tuple, concatenating the `unsqueeze(0)`-ed
pieces along a new leading axis named after `indices`' first axis name.
The engine's `cat` rejects an empty piece list (zero index rows). -/
def multi_index_select (tensor : NamedTensor) (dims : List String)
    (indices : NamedTensor) : Except String NamedTensor :=
  let indices_names := indices.names
  match indices_names.get? 1 with
  | none => .error "tuple index out of range"
  | some index_dim =>
  if dims.length ≠ indices.shapeAt index_dim then
    .error ("Size of elements in \x27indices\x27 should be " ++
      toString dims.length ++ ", got " ++ toString (indices.shapeAt index_dim))
  else if tensor.dimCount < dims.length then
    .error ("Size of \x27dims\x27 must be <= tensor dims (" ++
      toString tensor.dimCount ++ "), got " ++ toString dims.length)
  else if dims.dedup.length < dims.length then
    .error "Tuple \x27dims\x27 must contain unique names"
  else
    match dims.find? (fun d => d ∉ tensor.names) with
    | some d => .error (d ++ " is not a dimension name in tensor")
    | none =>
      let names := tensor.names
      let match_dims := dims.map (fun d => idxOf names d)
      let remaining := names.enum.filter (fun p => p.1 ∉ match_dims)
      let remaining_names := remaining.map (fun p => p.2)
      let permute_idx := match_dims ++ remaining.map (fun p => p.1)
      let values := permuteRaw permute_idx tensor.tensor
      let nrows := indices.tensor.shape.getD 0 0
      let ncols := indices.tensor.shape.getD 1 0
      let pieces := (List.range nrows).map (fun r =>
        unsqueeze0 (subIndex
          ((List.range ncols).map (fun c => (indices.tensor.data [r, c]).toNat))
          values))
      match pieces with
      | [] => .error "cat expects a non-empty list of tensors"
      | _ :: _ =>
        .ok ⟨catRaw pieces 0, indices_names.getD 0 "" :: remaining_names⟩

/-! ### Helper lemmas on the list utilities -/

theorem idxOf_append_left {α : Type} [DecidableEq α] {l₁ : List α} (l₂ : List α)
    {a : α} (h : a ∈ l₁) : idxOf (l₁ ++ l₂) a = idxOf l₁ a := by
  induction l₁ with
  | nil => cases h
  | cons b l ih =>
    by_cases hb : b = a
    · simp [idxOf, hb]
    · rcases List.mem_cons.mp h with h1 | h1
      · exact absurd h1.symm hb
      · simp [idxOf, hb, ih h1]

theorem idxOf_append_right {α : Type} [DecidableEq α] {l₁ : List α} (l₂ : List α)
    {a : α} (h : a ∉ l₁) : idxOf (l₁ ++ l₂) a = l₁.length + idxOf l₂ a := by
  induction l₁ with
  | nil => simp [idxOf]
  | cons b l ih =>
    have hb : b ≠ a := fun hba => h (hba ▸ List.mem_cons_self b l)
    have hl : a ∉ l := fun hm => h (List.mem_cons_of_mem b hm)
    simp [idxOf, hb, ih hl, List.length_cons]
    omega

theorem idxOf_range {n d : Nat} (h : d < n) : idxOf (List.range n) d = d := by
  induction n with
  | zero => omega
  | succ m ih =>
    rw [List.range_succ]
    by_cases hd : d < m
    · rw [idxOf_append_left _ (List.mem_range.mpr hd)]
      exact ih hd
    · have hdm : d = m := by omega
      subst hdm
      rw [idxOf_append_right _ (by simp [List.mem_range])]
      simp [idxOf, List.length_range]

theorem map_getD_range {l : List Nat} :
    (List.range l.length).map (fun i => l.getD i 0) = l := by
  induction l with
  | nil => simp
  | cons a l ih =>
    simp only [List.length_cons, List.range_succ_eq_map, List.map_cons,
      List.getD_cons_zero, List.map_map]
    refine congrArg (a :: ·) ?_
    refine (List.map_congr_left fun i _ => ?_).trans ih
    simp [Function.comp, List.getD_cons_succ]

theorem map_getD_idxOf_range {ix : List Nat} {n : Nat} (h : ix.length = n) :
    (List.range n).map (fun d => ix.getD (idxOf (List.range n) d) 0) = ix := by
  subst h
  calc (List.range ix.length).map (fun d => ix.getD (idxOf (List.range ix.length) d) 0)
      = (List.range ix.length).map (fun d => ix.getD d 0) := by
        refine List.map_congr_left (fun d hd => ?_)
        rw [idxOf_range (List.mem_range.mp hd)]
    _ = ix := map_getD_range

theorem alook_append {α β : Type} [DecidableEq α] (l₁ l₂ : List (α × β)) (a : α) :
    alook (l₁ ++ l₂) a =
      match alook l₁ a with
      | some v => some v
      | none => alook l₂ a := by
  induction l₁ with
  | nil => simp [alook]
  | cons p l ih =>
    by_cases hp : p.1 = a
    · simp [alook, hp]
    · simpa [alook, hp] using ih

/-! ### The id-assignment invariant of `dot` -/

/-- Specification-side (spec §4.2, step 1): record a name if not yet seen. -/
def seenStepN (seen : List String) (name : String) : List String :=
  if name ∈ seen then seen else seen ++ [name]

/-- Specification-side (spec §4.2, step 1): the distinct names across a
list of schemas, walking schemas in order and each schema's names in
order, in first-seen order. -/
def firstSeen (ls : List (List String)) : List String :=
  ls.foldl (fun acc l => l.foldl seenStepN acc) []

/-- Invariant tying the `ids` mapping of `dot` to the `seen_names` list:
every seen name's id is its position in `seen_names` (ids were handed out
sequentially, first-seen-wins), and unseen names have no id. -/
def IdsInv (ids : List (String × Nat)) (seen : List String) : Prop :=
  ids.length = seen.length ∧
  ∀ a, alook ids a = if a ∈ seen then some (idxOf seen a) else none

theorem dotName_eq {ids : List (String × Nat)} {seen : List String}
    {g : List Nat} {name : String} (h : IdsInv ids seen) :
    dotName (ids, seen, g) name =
      ((if name ∈ seen then ids else ids ++ [(name, ids.length)]),
        seenStepN seen name,
        g ++ [if name ∈ seen then idxOf seen name else ids.length]) := by
  by_cases hm : name ∈ seen
  · have hl : alook ids name = some (idxOf seen name) := by
      rw [h.2 name, if_pos hm]
    simp [dotName, hl, seenStepN, hm]
  · have hl : alook ids name = none := by
      rw [h.2 name, if_neg hm]
    simp [dotName, hl, seenStepN, hm]

theorem IdsInv_step {ids : List (String × Nat)} {seen : List String}
    (name : String) (h : IdsInv ids seen) :
    IdsInv (if name ∈ seen then ids else ids ++ [(name, ids.length)])
      (seenStepN seen name) := by
  by_cases hm : name ∈ seen
  · simpa [seenStepN, hm] using h
  · simp only [seenStepN, if_neg hm]
    refine ⟨by simp [h.1], fun a => ?_⟩
    rw [alook_append]
    rcases hc : alook ids a with _ | v
    · have ha : a ∉ seen := by
        intro hmem
        rw [h.2 a, if_pos hmem] at hc
        cases hc
      by_cases han : name = a
      · subst han
        simp only [alook, if_pos rfl]
        rw [if_pos (by simp), idxOf_append_right _ ha]
        simp [idxOf, h.1]
      · have hcond : ¬(a ∈ seen ∨ a = name) := by
          rintro (h1 | h1)
          · exact ha h1
          · exact han h1.symm
        simp [alook, han, hcond]
    · have ha : a ∈ seen := by
        by_contra hmem
        rw [h.2 a, if_neg hmem] at hc
        cases hc
      have hv : v = idxOf seen a := by
        rw [h.2 a, if_pos ha] at hc
        exact (Option.some_injective _ hc).symm
      rw [if_pos (List.mem_append_left _ ha), idxOf_append_left _ ha, hv]

theorem foldl_dotName_inv (l : List String) (ids : List (String × Nat))
    (seen : List String) (g : List Nat) (h : IdsInv ids seen) :
    IdsInv (l.foldl dotName (ids, seen, g)).1 (l.foldl dotName (ids, seen, g)).2.1 ∧
    (l.foldl dotName (ids, seen, g)).2.1 = l.foldl seenStepN seen := by
  induction l generalizing ids seen g with
  | nil => exact ⟨h, rfl⟩
  | cons n l ih =>
    rw [List.foldl_cons, dotName_eq h, List.foldl_cons]
    exact ih _ _ _ (IdsInv_step n h)

theorem foldl_dotTensor_inv (ts : List NamedTensor) (acc : DotAcc)
    (h : IdsInv acc.ids acc.seen) :
    IdsInv (ts.foldl dotTensor acc).ids (ts.foldl dotTensor acc).seen ∧
    (ts.foldl dotTensor acc).seen =
      (ts.map (fun t => t.names)).foldl (fun s l => l.foldl seenStepN s) acc.seen := by
  induction ts generalizing acc with
  | nil => exact ⟨h, rfl⟩
  | cons t ts ih =>
    rw [List.foldl_cons, List.map_cons, List.foldl_cons]
    have hstep := foldl_dotName_inv t.names acc.ids acc.seen [] h
    have hacc : IdsInv (dotTensor acc t).ids (dotTensor acc t).seen := hstep.1
    have hseen : (dotTensor acc t).seen = t.names.foldl seenStepN acc.seen := hstep.2
    rcases ih (dotTensor acc t) hacc with ⟨h1, h2⟩
    exact ⟨h1, by rw [h2, hseen]⟩

theorem dotAssign_inv (ts : List NamedTensor) :
    IdsInv (dotAssign ts).ids (dotAssign ts).seen ∧
    (dotAssign ts).seen = firstSeen (ts.map (fun t => t.names)) := by
  have h0 : IdsInv ([] : List (String × Nat)) ([] : List String) :=
    ⟨rfl, fun a => by simp [alook]⟩
  exact foldl_dotTensor_inv ts ⟨[], [], []⟩ h0

theorem mem_foldl_seenStepN (l : List String) (seen : List String) (a : String) :
    a ∈ l.foldl seenStepN seen ↔ a ∈ seen ∨ a ∈ l := by
  induction l generalizing seen with
  | nil => simp
  | cons n l ih =>
    rw [List.foldl_cons, ih]
    by_cases hm : n ∈ seen
    · simp only [seenStepN, if_pos hm, List.mem_cons]
      constructor
      · rintro (h1 | h1)
        · exact Or.inl h1
        · exact Or.inr (Or.inr h1)
      · rintro (h1 | h1 | h1)
        · exact Or.inl h1
        · exact Or.inl (h1 ▸ hm)
        · exact Or.inr h1
    · simp only [seenStepN, if_neg hm, List.mem_append, List.mem_singleton,
        List.mem_cons]
      tauto

theorem mem_firstSeen (ls : List (List String)) (a : String) :
    a ∈ firstSeen ls ↔ ∃ l ∈ ls, a ∈ l := by
  have key : ∀ (ls : List (List String)) (init : List String),
      a ∈ ls.foldl (fun acc l => l.foldl seenStepN acc) init ↔
        a ∈ init ∨ ∃ l ∈ ls, a ∈ l := by
    intro ls
    induction ls with
    | nil => simp
    | cons l ls ih =>
      intro init
      rw [List.foldl_cons, ih, mem_foldl_seenStepN]
      simp only [List.mem_cons]
      constructor
      · rintro ((h1 | h1) | ⟨m, hm, h1⟩)
        · exact Or.inl h1
        · exact Or.inr ⟨l, Or.inl rfl, h1⟩
        · exact Or.inr ⟨m, Or.inr hm, h1⟩
      · rintro (h1 | ⟨m, hm | hm, h1⟩)
        · exact Or.inl (Or.inl h1)
        · exact Or.inl (Or.inr (hm ▸ h1))
        · exact Or.inr ⟨m, hm, h1⟩
  rw [firstSeen, key]
  simp

/-! ### Concrete fixtures for witnesses and counterexamples -/

def X0 : NamedTensor := ⟨⟨[2, 3], fun ix => (ix.getD 0 0 * 3 + ix.getD 1 0 : Int)⟩, ["i", "k"]⟩

def Y0 : NamedTensor := ⟨⟨[3, 4], fun ix => (ix.getD 0 0 * 4 + ix.getD 1 0 + 1 : Int)⟩, ["k", "j"]⟩

def tAB : NamedTensor := ⟨⟨[1, 2], fun ix => (ix.getD 1 0 : Int)⟩, ["a", "b"]⟩

def tBA : NamedTensor := ⟨⟨[2, 1], fun ix => (5 + ix.getD 0 0 : Int)⟩, ["b", "a"]⟩

def tA : NamedTensor := ⟨⟨[2], fun ix => (10 * ix.getD 0 0 + 7 : Int)⟩, ["a"]⟩

def tAB2 : NamedTensor := ⟨⟨[2, 2], fun _ => 0⟩, ["a", "b"]⟩

def idx10 : NamedTensor := ⟨⟨[1, 0], fun _ => 0⟩, ["e", "c"]⟩

def idx20 : NamedTensor := ⟨⟨[2, 0], fun _ => 0⟩, ["e", "c"]⟩

def idx12 : NamedTensor := ⟨⟨[1, 2], fun _ => 0⟩, ["e", "c"]⟩

def idx13 : NamedTensor := ⟨⟨[1, 3], fun _ => 0⟩, ["e", "c"]⟩

def gIn : NamedTensor := ⟨⟨[2, 3], fun ix => (ix.getD 0 0 * 3 + ix.getD 1 0 : Int)⟩, ["i", "j"]⟩

def gIdx : NamedTensor := ⟨⟨[2, 2], fun ix => (if ix.getD 1 0 = 0 then 2 else 0 : Int)⟩, ["i", "k"]⟩

/-! ### Shared consequences of the `dot` definition -/

theorem dotPrepare_cases (dims : List String) (ts : List NamedTensor) :
    (∃ m, m ∈ dims ∧ m ∉ (dotAssign ts).seen ∧
      dotPrepare dims ts = .error ("No dimension " ++ m ++ " to contract along")) ∨
    ((∀ x ∈ dims, x ∈ (dotAssign ts).seen) ∧
      dotPrepare dims ts =
        .ok ((dotAssign ts).args,
          ((dotAssign ts).seen.filter (fun n => n ∉ dims)).map
            (fun n => (alook (dotAssign ts).ids n).getD 0),
          (dotAssign ts).seen.filter (fun n => n ∉ dims))) := by
  unfold dotPrepare
  dsimp only
  split
  next m heq =>
    refine Or.inl ⟨m, List.mem_of_find?_eq_some heq, ?_, rfl⟩
    simpa using List.find?_some heq
  next heq =>
    refine Or.inr ⟨fun x hx => ?_, rfl⟩
    simpa using List.find?_eq_none.mp heq x hx

theorem dot_ok_names {dims : List String} {ts : List NamedTensor} {r : NamedTensor}
    (h : dot dims ts = .ok r) :
    r.names = (dotAssign ts).seen.filter (fun n => n ∉ dims) := by
  rcases dotPrepare_cases dims ts with ⟨m, _, _, hprep⟩ | ⟨_, hprep⟩
  · unfold dot at h
    rw [hprep] at h
    simp [Except.map] at h
  · unfold dot at h
    rw [hprep] at h
    simp only [Except.map] at h
    injection h with h
    rw [← h]

/-! ### Claim theorems -/

/-- C1: `dot` walks operands in argument order and each operand's names in
schema order, assigning each previously-unseen name the next sequential
id (equivalently: every seen name's id is its position in the first-seen
list), and the output schema is exactly the distinct names across all
operands that are not contracted, in first-seen order; calls with the
same operand schemas in the same order yield the same output axis order. -/
theorem dot_first_seen_schema (cn : List String) (ts : List NamedTensor) :
    (dotAssign ts).seen = firstSeen (ts.map (fun t => t.names)) ∧
    (∀ a ∈ firstSeen (ts.map (fun t => t.names)),
      alook (dotAssign ts).ids a =
        some (idxOf (firstSeen (ts.map (fun t => t.names))) a)) ∧
    (∀ r, dot cn ts = .ok r →
      r.names = (firstSeen (ts.map (fun t => t.names))).filter (fun n => n ∉ cn)) ∧
    (∀ (ts' : List NamedTensor) r r',
      ts'.map (fun t => t.names) = ts.map (fun t => t.names) →
      dot cn ts = .ok r → dot cn ts' = .ok r' → r'.names = r.names) := by
  obtain ⟨hinv, hseen⟩ := dotAssign_inv ts
  refine ⟨hseen, ?_, ?_, ?_⟩
  · intro a ha
    rw [hinv.2 a, hseen, if_pos ha]
  · intro r hr
    rw [dot_ok_names hr, hseen]
  · intro ts' r r' hnames hr hr'
    rw [dot_ok_names hr, hseen, dot_ok_names hr', (dotAssign_inv ts').2, hnames]

theorem dot_first_seen_schema_witness :
    (dotAssign [X0, Y0]).seen = firstSeen [["i", "k"], ["k", "j"]] ∧
    (∃ r, dot ["k"] [X0, Y0] = .ok r ∧ r.names = ["i", "j"]) := by
  have h := dot_first_seen_schema ["k"] [X0, Y0]
  refine ⟨h.1, ?_⟩
  obtain ⟨r, hr⟩ : ∃ r, dot ["k"] [X0, Y0] = .ok r := ⟨_, rfl⟩
  refine ⟨r, hr, ?_⟩
  rw [h.2.2.1 r hr]
  decide

/-- C3: if some contraction name occurs in no operand's schema, `dot`
raises `No dimension ... to contract along`, and it does so in the
preparation stage (`dotPrepare`), before anything is dispatched to the
Einstein-summation backend. -/
theorem dot_unknown_contraction_error (dims : List String) (ts : List NamedTensor)
    (n : String) (hmem : n ∈ dims) (habs : ∀ t ∈ ts, n ∉ t.names) :
    ∃ m, m ∈ dims ∧ (∀ t ∈ ts, m ∉ t.names) ∧
      dotPrepare dims ts = .error ("No dimension " ++ m ++ " to contract along") ∧
      dot dims ts = .error ("No dimension " ++ m ++ " to contract along") := by
  have hseen := (dotAssign_inv ts).2
  have habs_seen : ∀ a, (∀ t ∈ ts, a ∉ t.names) → a ∉ (dotAssign ts).seen := by
    intro a ha hc
    rw [hseen, mem_firstSeen] at hc
    obtain ⟨l, hl, hal⟩ := hc
    obtain ⟨t, ht, rfl⟩ := List.mem_map.mp hl
    exact ha t ht hal
  have hseen_abs : ∀ a, a ∉ (dotAssign ts).seen → ∀ t ∈ ts, a ∉ t.names := by
    intro a ha t ht hat
    exact ha (by
      rw [hseen, mem_firstSeen]
      exact ⟨t.names, List.mem_map.mpr ⟨t, ht, rfl⟩, hat⟩)
  rcases dotPrepare_cases dims ts with ⟨m, hmd, hpm, hprep⟩ | ⟨hall, _⟩
  · refine ⟨m, hmd, hseen_abs m hpm, hprep, ?_⟩
    unfold dot
    rw [hprep]
    rfl
  · exact absurd (hall n hmem) (habs_seen n habs)

theorem dot_unknown_contraction_error_witness :
    ∃ m, m ∈ ["z"] ∧ (∀ t ∈ [X0], m ∉ t.names) ∧
      dotPrepare ["z"] [X0] = .error ("No dimension " ++ m ++ " to contract along") ∧
      dot ["z"] [X0] = .error ("No dimension " ++ m ++ " to contract along") := by
  refine dot_unknown_contraction_error ["z"] [X0] "z" (by decide) ?_
  intro t ht
  rw [List.mem_singleton] at ht
  subst ht
  decide

/-- C2: contracting `X` named (i,k) of shape (2,3) with `Y` named (k,j)
of shape (3,4) along `k` yields a tensor named (i,j) of shape (2,4) whose
entries are the standard matrix product of `X` and `Y`. -/
theorem dot_matmul (f g : List Nat → Int) :
    ∃ r, dot ["k"] [⟨⟨[2, 3], f⟩, ["i", "k"]⟩, ⟨⟨[3, 4], g⟩, ["k", "j"]⟩] = .ok r ∧
      r.names = ["i", "j"] ∧ r.tensor.shape = [2, 4] ∧
      ∀ a b : Nat, r.tensor.data [a, b] =
        ((List.range 3).map (fun k => f [a, k] * g [k, b])).sum := by
  refine ⟨_, rfl, rfl, rfl, fun a b => ?_⟩
  show (einsum [(⟨[2, 3], f⟩, [0, 1]), (⟨[3, 4], g⟩, [1, 2])] [0, 2]).data [a, b] = _
  have h1 : (einsum [(⟨[2, 3], f⟩, [0, 1]), (⟨[3, 4], g⟩, [1, 2])] [0, 2]).data [a, b]
      = f [a, 0] * (g [0, b] * 1) +
        (f [a, 1] * (g [1, b] * 1) + (f [a, 2] * (g [2, b] * 1) + 0)) := rfl
  rw [h1]
  simp [List.range_succ]

/-- C4 (counterexample): two operands carrying the same SET of dimension
names in different physical orders make `cat` fail at its schema assert,
whereas the claim says the call succeeds. -/
theorem cat_permuted_names_cex :
    tAB.names.Perm tBA.names ∧
    cat [tAB, tBA] "a" =
      .error "assert failed: operand names differ from first operand" :=
  ⟨by decide, rfl⟩

/-- C4 (amended): when every operand carries the first operand's exact
name sequence and `dim` names one of its axes, `cat` succeeds and
concatenates along the physical axis `dim` occupies in the FIRST
operand's schema (not per-tensor), sharing that schema. -/
theorem cat_first_schema (t0 : NamedTensor) (rest : List NamedTensor) (dim : String)
    (hall : ∀ t ∈ rest, t.names = t0.names) (hdim : dim ∈ t0.names) :
    cat (t0 :: rest) dim =
      .ok ⟨catRaw ((t0 :: rest).map (fun t => t.tensor)) (idxOf t0.names dim),
        t0.names⟩ := by
  have hget : t0.getDim dim = .ok (idxOf t0.names dim) := by
    unfold NamedTensor.getDim
    rw [if_pos hdim]
  have hfind : rest.find? (fun t => t.names ≠ t0.names) = none :=
    List.find?_eq_none.mpr (fun t ht => by simp [hall t ht])
  simp only [cat, hget, hfind]
  rfl

theorem cat_first_schema_witness :
    cat [tAB] "a" = .ok ⟨catRaw [tAB.tensor] 0, ["a", "b"]⟩ :=
  cat_first_schema tAB [] "a" (by intro t ht; cases ht) (by decide)

/-- C5: `stack` on a non-empty operand list fails whenever some operand's
name sequence differs from the first operand's (also for mere
reorderings), and on success returns the values stacked along a new
leading physical axis with schema `name` prepended to the first
operand's name sequence, all other names unchanged in order. -/
theorem stack_schema (t0 : NamedTensor) (rest : List NamedTensor) (name : String) :
    ((∃ t ∈ rest, t.names ≠ t0.names) →
      stack (t0 :: rest) name =
        .error "Tensors to stack don\x27t have matching dimension names") ∧
    ((∀ t ∈ rest, t.names = t0.names) →
      stack (t0 :: rest) name =
        .ok ⟨stackRaw ((t0 :: rest).map (fun t => t.tensor)), name :: t0.names⟩) := by
  constructor
  · rintro ⟨t, ht, hne⟩
    have hs : (rest.find? (fun t => t.names ≠ t0.names)).isSome :=
      List.find?_isSome.mpr ⟨t, ht, by simp [hne]⟩
    obtain ⟨u, hu⟩ := Option.isSome_iff_exists.mp hs
    simp only [stack, hu]
  · intro hall
    have hfind : rest.find? (fun t => t.names ≠ t0.names) = none :=
      List.find?_eq_none.mpr (fun t ht => by simp [hall t ht])
    simp only [stack, hfind]

theorem stack_schema_witness :
    stack [tAB, tBA] "s" =
      .error "Tensors to stack don\x27t have matching dimension names" ∧
    stack [tAB] "s" = .ok ⟨stackRaw [tAB.tensor], "s" :: tAB.names⟩ := by
  constructor
  · exact (stack_schema tAB [tBA] "s").1 ⟨tBA, by simp, by decide⟩
  · exact (stack_schema tAB [] "s").2 (by intro t ht; cases ht)

/-- C6 (code bug): on input named (i,j) with `dim = "j"`, index named
(i,k) and `index_dim = "k"`, `gather` force-orders the index to (i,k) and
issues the positional gather at axis 1, but the result keeps schema
(i,j): the source builds the rename map as `updates={index_dim: index}`
— keying the NEW name (absent from input's schema) and giving the index
TENSOR as replacement (modelled by the arbitrary string `v`) — so the
gathered axis is never renamed to `index_dim` as the claim and the spec's
`_new` contract require. -/
theorem gather_no_rename_bug (v : String) :
    gather gIn "j" gIdx "k" v =
      .ok ⟨gatherRaw gIn.tensor 1 (permuteRaw [0, 1] gIdx.tensor), ["i", "j"]⟩ ∧
    (["i", "j"] : List String) ≠ ["i", "k"] :=
  ⟨rfl, by decide⟩

/-- C7: `scatter_` force-orders `index`, then `src`, then resolves the
axis, and only then mutates: if force-ordering either operand fails, the
post-state of `input` is exactly `input` (contents untouched) and the
error is reported; in every case the post-state carries `input`'s schema
unchanged — the mutation can only touch tensor contents, and no new
NamedTensor is produced. -/
theorem scatter_frame (input : NamedTensor) (dim : String) (index src : NamedTensor)
    (index_dim : String) :
    (scatterRun input dim index src index_dim).1.names = input.names ∧
    (∀ e, (scatterRun input dim index src index_dim).2 = some e →
      (scatterRun input dim index src index_dim).1 = input) ∧
    (((∃ e, index.forceOrder
          (input.names.map (fun n => if n = dim then index_dim else n)) = .error e) ∨
      (∃ e, src.forceOrder
          (input.names.map (fun n => if n = dim then index_dim else n)) = .error e)) →
      (scatterRun input dim index src index_dim).1 = input ∧
      (scatterRun input dim index src index_dim).2.isSome = true) := by
  unfold scatterRun
  dsimp only
  cases h1 : index.forceOrder (input.names.map fun n => if n = dim then index_dim else n) with
  | error e1 =>
    exact ⟨rfl, fun e _ => rfl, fun _ => ⟨rfl, rfl⟩⟩
  | ok b1 =>
    cases h2 : src.forceOrder (input.names.map fun n => if n = dim then index_dim else n) with
    | error e2 =>
      exact ⟨rfl, fun e _ => rfl, fun _ => ⟨rfl, rfl⟩⟩
    | ok b2 =>
      cases h3 : input.getDim dim with
      | error e3 =>
        refine ⟨rfl, fun e _ => rfl, fun h => ?_⟩
        rcases h with ⟨e, he⟩ | ⟨e, he⟩ <;> exact Except.noConfusion he
      | ok d =>
        refine ⟨rfl, fun e he => ?_, fun h => ?_⟩
        · cases he
        · rcases h with ⟨e, he⟩ | ⟨e, he⟩ <;> exact Except.noConfusion he

theorem scatter_frame_witness :
    (scatterRun tAB "b" idx12 tBA "c").1.names = tAB.names ∧
    (scatterRun tAB "b" idx12 tBA "c").1 = tAB ∧
    (scatterRun tAB "b" idx12 tBA "c").2.isSome = true := by
  have h := scatter_frame tAB "b" idx12 tBA "c"
  exact ⟨h.1, h.2.1 "Cannot force order: names do not match" rfl,
    (h.2.2 (Or.inl ⟨"Cannot force order: names do not match", rfl⟩)).2⟩

/-! ### The validation cascade of `multi_index_select` -/

theorem mis_err_size (tensor : NamedTensor) (dims : List String)
    (indices : NamedTensor) (idim : String)
    (hq : indices.names.get? 1 = some idim)
    (h : dims.length ≠ indices.shapeAt idim) :
    multi_index_select tensor dims indices =
      .error ("Size of elements in \x27indices\x27 should be " ++
        toString dims.length ++ ", got " ++ toString (indices.shapeAt idim)) := by
  unfold multi_index_select
  dsimp only
  simp only [hq]
  rw [if_pos h]

theorem mis_err_rank (tensor : NamedTensor) (dims : List String)
    (indices : NamedTensor) (idim : String)
    (hq : indices.names.get? 1 = some idim)
    (hsz : dims.length = indices.shapeAt idim)
    (h : tensor.dimCount < dims.length) :
    multi_index_select tensor dims indices =
      .error ("Size of \x27dims\x27 must be <= tensor dims (" ++
        toString tensor.dimCount ++ "), got " ++ toString dims.length) := by
  unfold multi_index_select
  dsimp only
  simp only [hq]
  rw [if_neg (fun hc => hc hsz), if_pos h]

theorem mis_err_dup (tensor : NamedTensor) (dims : List String)
    (indices : NamedTensor) (idim : String)
    (hq : indices.names.get? 1 = some idim)
    (hsz : dims.length = indices.shapeAt idim)
    (hrk : ¬ tensor.dimCount < dims.length)
    (h : dims.dedup.length < dims.length) :
    multi_index_select tensor dims indices =
      .error "Tuple \x27dims\x27 must contain unique names" := by
  unfold multi_index_select
  dsimp only
  simp only [hq]
  rw [if_neg (fun hc => hc hsz), if_neg hrk, if_pos h]

theorem mis_err_name (tensor : NamedTensor) (dims : List String)
    (indices : NamedTensor) (idim : String) (d : String)
    (hq : indices.names.get? 1 = some idim)
    (hsz : dims.length = indices.shapeAt idim)
    (hrk : ¬ tensor.dimCount < dims.length)
    (hdup : ¬ dims.dedup.length < dims.length)
    (hfind : dims.find? (fun x => x ∉ tensor.names) = some d) :
    multi_index_select tensor dims indices =
      .error (d ++ " is not a dimension name in tensor") := by
  unfold multi_index_select
  dsimp only
  simp only [hq, hfind]
  rw [if_neg (fun hc => hc hsz), if_neg hrk, if_neg hdup]

/-- C10: `multi_index_select` runs its checks in a fixed order — indices'
second-axis size versus `len(dims)`, then `len(dims)` versus tensor
dimension count, then duplicates in `dims`, then membership of each dim —
so with several violations at once the raised error is always the
earliest in this order. -/
theorem mis_check_order (tensor : NamedTensor) (dims : List String)
    (indices : NamedTensor) (idim : String)
    (hq : indices.names.get? 1 = some idim) :
    (dims.length ≠ indices.shapeAt idim →
      multi_index_select tensor dims indices =
        .error ("Size of elements in \x27indices\x27 should be " ++
          toString dims.length ++ ", got " ++ toString (indices.shapeAt idim))) ∧
    (dims.length = indices.shapeAt idim → tensor.dimCount < dims.length →
      multi_index_select tensor dims indices =
        .error ("Size of \x27dims\x27 must be <= tensor dims (" ++
          toString tensor.dimCount ++ "), got " ++ toString dims.length)) ∧
    (dims.length = indices.shapeAt idim → ¬ tensor.dimCount < dims.length →
      dims.dedup.length < dims.length →
      multi_index_select tensor dims indices =
        .error "Tuple \x27dims\x27 must contain unique names") ∧
    (dims.length = indices.shapeAt idim → ¬ tensor.dimCount < dims.length →
      ¬ dims.dedup.length < dims.length →
      ∀ d, dims.find? (fun x => x ∉ tensor.names) = some d →
        multi_index_select tensor dims indices =
          .error (d ++ " is not a dimension name in tensor")) :=
  ⟨mis_err_size tensor dims indices idim hq,
   mis_err_rank tensor dims indices idim hq,
   mis_err_dup tensor dims indices idim hq,
   fun hsz hrk hdup d hfind =>
     mis_err_name tensor dims indices idim d hq hsz hrk hdup hfind⟩

theorem mis_check_order_witness :
    multi_index_select tAB2 ["z", "z"] idx13 =
      .error "Size of elements in \x27indices\x27 should be 2, got 3" ∧
    multi_index_select tA ["a", "b"] idx12 =
      .error "Size of \x27dims\x27 must be <= tensor dims (1), got 2" ∧
    multi_index_select tAB2 ["z", "z"] idx12 =
      .error "Tuple \x27dims\x27 must contain unique names" ∧
    multi_index_select tAB2 ["z", "q"] idx12 =
      .error "z is not a dimension name in tensor" := by
  refine ⟨(mis_check_order tAB2 ["z", "z"] idx13 "c" rfl).1 (by decide),
    (mis_check_order tA ["a", "b"] idx12 "c" rfl).2.1 (by decide) (by decide),
    (mis_check_order tAB2 ["z", "z"] idx12 "c" rfl).2.2.1 (by decide) (by decide)
      (by decide),
    (mis_check_order tAB2 ["z", "q"] idx12 "c" rfl).2.2.2 (by decide) (by decide)
      (by decide) "z" ?_⟩
  rfl

/-- C8 (counterexample): with duplicate `dims` the call always fails, but
not always with the duplicate-dims error — an indices-size mismatch masks
it — and when the duplicate-dims error does fire its message does not
report the offending name. -/
theorem mis_duplicate_masked_cex :
    multi_index_select tAB2 ["z", "z"] idx13 ≠
      .error "Tuple \x27dims\x27 must contain unique names" ∧
    multi_index_select tAB2 ["z", "z"] idx13 =
      .error "Size of elements in \x27indices\x27 should be 2, got 3" ∧
    multi_index_select tAB2 ["z", "z"] idx12 =
      .error "Tuple \x27dims\x27 must contain unique names" ∧
    (Char.ofNat 122) ∉ ("Tuple \x27dims\x27 must contain unique names").data := by
  refine ⟨?_, rfl, rfl, by decide⟩
  intro h
  rw [show multi_index_select tAB2 ["z", "z"] idx13 =
    .error "Size of elements in \x27indices\x27 should be 2, got 3" from rfl] at h
  simp at h

/-- C8 (amended): `multi_index_select` with duplicate `dims` always fails
— it never silently dedupes — and whenever the earlier indices-size and
rank checks pass, the error raised is the duplicate-dims error (whose
message names no offending value). -/
theorem mis_duplicate_always_fails (tensor : NamedTensor) (dims : List String)
    (indices : NamedTensor) (hdup : dims.dedup.length < dims.length) :
    (∃ e, multi_index_select tensor dims indices = .error e) ∧
    (∀ idim, indices.names.get? 1 = some idim →
      dims.length = indices.shapeAt idim →
      ¬ tensor.dimCount < dims.length →
      multi_index_select tensor dims indices =
        .error "Tuple \x27dims\x27 must contain unique names") := by
  constructor
  · cases hq : indices.names.get? 1 with
    | none =>
      refine ⟨"tuple index out of range", ?_⟩
      unfold multi_index_select
      dsimp only
      simp only [hq]
    | some idim =>
      by_cases hsz : dims.length ≠ indices.shapeAt idim
      · exact ⟨_, mis_err_size tensor dims indices idim hq hsz⟩
      · have hsz' : dims.length = indices.shapeAt idim := not_not.mp (by
          intro hc
          exact hsz hc)
        by_cases hrk : tensor.dimCount < dims.length
        · exact ⟨_, mis_err_rank tensor dims indices idim hq hsz' hrk⟩
        · exact ⟨_, mis_err_dup tensor dims indices idim hq hsz' hrk hdup⟩
  · intro idim hq hsz hrk
    exact mis_err_dup tensor dims indices idim hq hsz hrk hdup

theorem mis_duplicate_always_fails_witness :
    (∃ e, multi_index_select tAB2 ["z", "z"] idx13 = .error e) ∧
    multi_index_select tAB2 ["z", "z"] idx12 =
      .error "Tuple \x27dims\x27 must contain unique names" := by
  have h13 := mis_duplicate_always_fails tAB2 ["z", "z"] idx13 (by decide)
  have h12 := mis_duplicate_always_fails tAB2 ["z", "z"] idx12 (by decide)
  exact ⟨h13.1, h12.2 "c" rfl (by decide) (by decide)⟩

/-- C9 (counterexample): with `dims = ()` but an index tensor whose FIRST
axis has size 2 (shape (2,0)), `multi_index_select` returns a leading
element-axis of size 2 — two stacked copies — not the singleton leading
axis the claim promises for every indices of second-axis size 0. -/
theorem mis_empty_dims_not_identity_cex :
    (multi_index_select tA [] idx20).map (fun r => (r.names, r.tensor.shape)) =
      .ok (["e", "a"], [2, 2]) ∧
    tA.tensor.shape = [2] ∧
    ((["e", "a"], [2, 2]) : List String × List Nat) ≠ (["e", "a"], [1, 2]) :=
  ⟨rfl, rfl, by decide⟩

/-- C9 (amended): with `dims = ()` and a 2-D index tensor of shape (1,0)
(one index row, zero coordinates), `multi_index_select` is the identity
reshape: it returns the tensor's values unchanged under a new singleton
leading element-axis named after the index tensor's first axis name, all
remaining names preserved in order. -/
theorem mis_empty_dims_identity (t : NamedTensor) (ename cname : String)
    (f : List Nat → Int) (hne : ename ≠ cname)
    (hinv : t.tensor.shape.length = t.names.length) :
    ∃ r, multi_index_select t [] ⟨⟨[1, 0], f⟩, [ename, cname]⟩ = .ok r ∧
      r.names = ename :: t.names ∧
      r.tensor.shape = 1 :: t.tensor.shape ∧
      ∀ ix, ix.length = t.names.length →
        r.tensor.data (0 :: ix) = t.tensor.data ix := by
  have hidx : idxOf [ename, cname] cname = 1 := by
    simp [idxOf, hne]
  have hshape : NamedTensor.shapeAt ⟨⟨[1, 0], f⟩, [ename, cname]⟩ cname = 0 := by
    unfold NamedTensor.shapeAt
    rw [hidx]
    rfl
  have hrem : t.names.enum.filter (fun p => p.1 ∉ ([] : List Nat)) = t.names.enum :=
    List.filter_eq_self.mpr (fun a _ => by simp)
  refine ⟨⟨catRaw [unsqueeze0 (subIndex [] (permuteRaw
      (([] : List Nat) ++ (t.names.enum.filter
        (fun p => p.1 ∉ ([] : List Nat))).map (fun p => p.1)) t.tensor))] 0,
    ename :: (t.names.enum.filter
      (fun p => p.1 ∉ ([] : List Nat))).map (fun p => p.2)⟩, ?_, ?_, ?_, ?_⟩
  · unfold multi_index_select
    dsimp only [List.get?]
    rw [hshape]
    rw [if_neg (fun hc => hc rfl), if_neg (by simp : ¬ t.dimCount < [].length),
      if_neg (by simp : ¬ ([] : List String).dedup.length < [].length)]
    rfl
  · show ename :: (t.names.enum.filter (fun p => p.1 ∉ ([] : List Nat))).map
      (fun p => p.2) = ename :: t.names
    rw [hrem]
    exact congrArg (ename :: ·) (List.enum_map_snd t.names)
  · show 1 :: (([] : List Nat) ++ (t.names.enum.filter
        (fun p => p.1 ∉ ([] : List Nat))).map (fun p => p.1)).map
          (fun d => t.tensor.shape.getD d 0) = 1 :: t.tensor.shape
    rw [hrem, List.nil_append]
    refine congrArg (1 :: ·) ?_
    have hfst : (t.names.enum.map (fun p => p.1)) = List.range t.names.length :=
      List.enum_map_fst t.names
    rw [hfst, ← hinv, map_getD_range]
  · intro ix hix
    show (permuteRaw (([] : List Nat) ++ (t.names.enum.filter
        (fun p => p.1 ∉ ([] : List Nat))).map (fun p => p.1)) t.tensor).data ix =
      t.tensor.data ix
    rw [hrem, List.nil_append]
    have hfst : (t.names.enum.map (fun p => p.1)) = List.range t.names.length :=
      List.enum_map_fst t.names
    unfold permuteRaw
    dsimp only
    rw [hfst, List.length_range, map_getD_idxOf_range hix]

theorem mis_empty_dims_identity_witness :
    ∃ r, multi_index_select tA [] idx10 = .ok r ∧
      r.names = "e" :: tA.names ∧
      r.tensor.shape = 1 :: tA.tensor.shape ∧
      ∀ ix, ix.length = tA.names.length →
        r.tensor.data (0 :: ix) = tA.tensor.data ix :=
  mis_empty_dims_identity tA "e" "c" (fun _ => 0) (by decide) rfl

end NT
